import Mathlib

/-!
Shallow embedding of the Fluid Horizon reinforcement-learning environment
(`environment.py`) and of the checkpoint-resumption logic of the training
entry point (`train.py`).

Conventions of the embedding:
* Python floats are modelled by `ℚ`.  All arithmetic performed by the code
  on ship positions and velocities stays in halves (gravity `0.5`, thrust
  `-10`, integer initial data), so rationals model the floats exactly.
* `pygame.Rect` stores integers; assigning a float to a rect coordinate
  truncates toward zero (`truncZ`).
* The process-wide `random` module is modelled by a stream `g : ℕ → ℤ` of
  raw draws together with a cursor `rngIdx`; `random.randint a b` maps a
  raw draw into `[a, b]` via `randint`.
* `self.obstacles[-1]` after a `pop(0)` that empties the list would raise
  `IndexError`; `step` therefore returns an `Option`, with `none` for that
  (unreachable) error path.
-/

-- ## Module-level game constants (environment.py, lines 16, 30-36)

def WIDTH : ℤ := 800

def HEIGHT : ℤ := 600

def GRAVITY : ℚ := 1/2

def THRUST : ℚ := -10

def OBSTACLE_SPEED : ℤ := 5

def OBSTACLE_WIDTH : ℤ := 80

def GAP_HEIGHT : ℤ := 200

/-- Truncation toward zero, the conversion applied when a Python float is
assigned to a `pygame.Rect` coordinate (a C `int` cast).  `Int./` is
T-division, so `num / den` truncates toward zero. -/
def truncZ (q : ℚ) : ℤ :=
  q.num / (q.den : ℤ)

/-- `random.randint a b`: a draw from the inclusive range `[a, b]`, modelled
by reducing an arbitrary raw draw `r` into the range. -/
def randint (a b r : ℤ) : ℤ :=
  a + r % (b - a + 1)

-- ## Ship (environment.py, lines 41-60)

/-- The player ship.  `width = 40` and `height = 30` are fixed by
`Ship.__init__` and never change; `y` and `velocity` are the Python float
attributes, `rect_y` the integer `rect.y` (clamped by `update`). -/
structure Ship where
  x : ℤ
  y : ℚ
  velocity : ℚ
  rect_y : ℤ
  deriving DecidableEq, Repr

def SHIP_WIDTH : ℤ := 40

def SHIP_HEIGHT : ℤ := 30

/-- `Ship.__init__`: starts in the vertical middle of the screen. -/
def Ship.init : Ship :=
  { x := 100, y := 300, velocity := 0, rect_y := 300 }

/-- `Ship.update(thrust_on)`: optional thrust, then gravity, velocity added
to `y`, `rect.y` assigned from `y` and clamped to
`[0, HEIGHT - rect.height]`.  Note that only `rect.y` is clamped; the float
attribute `y` is left as computed. -/
def Ship.update (s : Ship) (thrust_on : Bool) : Ship :=
  let v1 : ℚ := if thrust_on then s.velocity + THRUST else s.velocity
  let v2 : ℚ := v1 + GRAVITY
  let y2 : ℚ := s.y + v2
  { x := s.x, y := y2, velocity := v2,
    rect_y := max 0 (min (truncZ y2) (HEIGHT - SHIP_HEIGHT)) }

-- ## Obstacle (environment.py, lines 66-84)

/-- An obstacle: horizontal position `x`, randomized gap center, and the
`passed` flag.  `width = OBSTACLE_WIDTH` and `gap_height = GAP_HEIGHT` are
fixed by `Obstacle.__init__`.  The derived rects are
`top_rect = (x, 0, 80, gap_center_y - 100)` and
`bottom_rect = (x, gap_center_y + 100, 80, 600)`. -/
structure Obstacle where
  x : ℤ
  gap_center_y : ℤ
  passed : Bool
  deriving DecidableEq, Repr

/-- `Obstacle.__init__(x)` with the raw random draw `r` supplying
`random.randint(gap_height // 2, HEIGHT - gap_height // 2)`
= `random.randint(100, 500)`. -/
def mkObstacle (x r : ℤ) : Obstacle :=
  { x := x, gap_center_y := randint 100 500 r, passed := false }

-- ## Collision (environment.py, lines 91-98)

/-- `pygame.Rect.colliderect`: strict overlap on both axes, so rectangles
that merely touch (or have zero width/height) do not collide. -/
def collideRect (ax ay aw ah bx bY bw bh : ℤ) : Bool :=
  decide (ax < bx + bw) && decide (ay < bY + bh) &&
    decide (bx < ax + aw) && decide (bY < ay + ah)

/-- One obstacle's collision test against the ship rect
`(100, rect_y, 40, 30)`: top rect or bottom rect. -/
def obstacleHit (s : Ship) (o : Obstacle) : Bool :=
  collideRect s.x s.rect_y SHIP_WIDTH SHIP_HEIGHT o.x 0 OBSTACLE_WIDTH
      (o.gap_center_y - GAP_HEIGHT / 2) ||
    collideRect s.x s.rect_y SHIP_WIDTH SHIP_HEIGHT o.x
      (o.gap_center_y + GAP_HEIGHT / 2) OBSTACLE_WIDTH HEIGHT

/-- `check_collision(ship, obstacles)`: screen top/bottom bound first, then
any obstacle's top or bottom rectangle. -/
def check_collision (s : Ship) (obstacles : List Obstacle) : Bool :=
  if s.rect_y ≤ 0 || s.rect_y + SHIP_HEIGHT ≥ HEIGHT then true
  else obstacles.any (obstacleHit s)

-- ## Environment state (FluidHorizonEnv)

/-- The mutable state owned by `FluidHorizonEnv`.  `rngIdx` is the cursor
into the process-wide random stream; `npSeed` records the seed passed to
`super().reset(seed=seed)` (it seeds `self.np_random`, which nothing in the
environment ever reads). -/
structure EnvState where
  ship : Ship
  obstacles : List Obstacle
  score : ℕ
  passed_obstacles : ℕ
  rngIdx : ℕ
  npSeed : Option ℤ
  deriving DecidableEq, Repr

/-- The first obstacle, in sequence order, with `x + width > ship.x`
(the linear scan at the top of `_get_obs`). -/
def nextObstacle (shipx : ℤ) (obstacles : List Obstacle) : Option Obstacle :=
  obstacles.find? (fun o => decide (o.x + OBSTACLE_WIDTH > shipx))

/-- `_get_obs`: the 5-component observation vector.
`abs(THRUST * 1.5) = 15`. -/
def get_obs (st : EnvState) : ℚ × ℚ × ℚ × ℚ × ℚ :=
  let c1 : ℚ := (st.ship.y - 300) / 300
  let c2 : ℚ := st.ship.velocity / 15
  match nextObstacle st.ship.x st.obstacles with
  | none => (c1, c2, 1, 0, 0)
  | some o =>
      (c1, c2, ((o.x : ℚ) - (st.ship.x : ℚ)) / 800,
        ((o.gap_center_y : ℚ) - 300) / 300, 200 / 600)

/-- `reset(seed)`: fresh ship, five obstacles at `WIDTH + i * (WIDTH // 2)`,
zeroed counters.  `k` is the current cursor of the process-wide random
stream `g`; the five gap draws consume `g k, …, g (k+4)`. -/
def reset (g : ℕ → ℤ) (seed : Option ℤ) (k : ℕ) : EnvState :=
  { ship := Ship.init,
    obstacles := (List.range 5).map (fun i : ℕ => mkObstacle (800 + (i : ℤ) * 400) (g (k + i))),
    score := 0, passed_obstacles := 0, rngIdx := k + 5, npSeed := seed }

-- ## step (environment.py, lines 181-217)

/-- The body of the per-obstacle loop in `step`: `obs.update()` moves the
obstacle left by `OBSTACLE_SPEED`, then the obstacle is marked `passed` when
its right edge is behind the ship and it was not already marked. -/
def moveMark (shipx : ℤ) (o : Obstacle) : Obstacle :=
  if (o.x - OBSTACLE_SPEED) + OBSTACLE_WIDTH < shipx ∧ o.passed = false then
    { o with x := o.x - OBSTACLE_SPEED, passed := true }
  else { o with x := o.x - OBSTACLE_SPEED }

/-- Whether the loop in `step` newly marks obstacle `o` as passed this tick
(after its move): right edge behind the ship and not yet `passed`. -/
def newlyPassed (shipx : ℤ) (o : Obstacle) : Bool :=
  decide (o.x - OBSTACLE_SPEED + OBSTACLE_WIDTH < shipx) && !o.passed

/-- The recycling block of `step`: if the (already moved) head obstacle has
fully left the screen, pop it and append a fresh obstacle at
`obstacles[-1].x + WIDTH // 2`.  `none` models the `IndexError` that
`self.obstacles[-1]` would raise if the pop emptied the list. -/
def recycle (g : ℕ → ℤ) (k : ℕ) (obstacles : List Obstacle) :
    Option (List Obstacle × ℕ) :=
  match obstacles with
  | [] => some ([], k)
  | h :: t =>
      if h.x + OBSTACLE_WIDTH < 0 then
        match t.getLast? with
        | some last => some (t ++ [mkObstacle (last.x + 400) (g k)], k + 1)
        | none => none
      else some (h :: t, k)

/-- `step(action)`: ship physics, obstacle advance and pass detection,
recycling, collision check, reward.  Returns
`(new state, reward, terminated)`; a collision overwrites the reward with
`-100.0`, otherwise the survival bonus `0.1` is added on top of `25.0` per
newly passed obstacle. -/
def step (g : ℕ → ℤ) (st : EnvState) (action : Bool) :
    Option (EnvState × ℚ × Bool) :=
  match recycle g st.rngIdx (st.obstacles.map (moveMark st.ship.x)) with
  | none => none
  | some (obs2, k2) =>
      some ({ ship := st.ship.update action, obstacles := obs2,
              score := st.score + st.obstacles.countP (newlyPassed st.ship.x),
              passed_obstacles :=
                st.passed_obstacles + st.obstacles.countP (newlyPassed st.ship.x),
              rngIdx := k2, npSeed := st.npSeed },
            if check_collision (st.ship.update action) obs2 then -100
            else 25 * (st.obstacles.countP (newlyPassed st.ship.x) : ℚ) + 1/10,
            check_collision (st.ship.update action) obs2)

/-- Run a list of actions from a state, one `step` per action. -/
def runSteps (g : ℕ → ℤ) (acts : List Bool) (st : EnvState) : Option EnvState :=
  match acts with
  | [] => some st
  | a :: rest =>
      match step g st a with
      | none => none
      | some (st2, _, _) => runSteps g rest st2

/-- States reachable by a `reset` followed by any sequence of `step` calls
(the code keeps no terminated flag, so `step` may be called at any time). -/
inductive Reachable (g : ℕ → ℤ) : EnvState → Prop where
  | reset : ∀ seed k, Reachable g (reset g seed k)
  | step : ∀ st a st' r t, Reachable g st → step g st a = some (st', r, t) →
      Reachable g st'

-- ## Checkpoint resumption (train.py, lines 41-57)

/-- A snapshot file in the checkpoint directory: its name and its
modification time as reported by `os.path.getmtime`. -/
structure CkptFile where
  name : String
  mtime : ℤ
  deriving DecidableEq, Repr

/-- Python's `max(checkpoints, key=os.path.getmtime)`: the first element of
maximal mtime (`max` keeps the current candidate unless a later element
compares strictly greater). -/
def maxByMtime (l : List CkptFile) : Option CkptFile :=
  match l with
  | [] => none
  | h :: t => some (t.foldl (fun acc c => if acc.mtime < c.mtime then c else acc) h)

/-- The resumption decision of `main` in `train.py`: `glob` the checkpoint
directory; if the list is non-empty resume from the latest-by-mtime file,
otherwise (`none`) start a fresh run. -/
def resumeDecision (checkpoints : List CkptFile) : Option CkptFile :=
  maxByMtime checkpoints

-- ## Basic facts about the embedding

/-- The all-zero raw random stream, used for concrete runs: every gap draw
becomes `randint 100 500 0 = 100`. -/
def zeroStream : ℕ → ℤ := fun _ => 0

theorem reset_obstacles_length (g : ℕ → ℤ) (seed : Option ℤ) (k : ℕ) :
    (reset g seed k).obstacles.length = 5 := by
  simp [reset]

theorem reset_ship (g : ℕ → ℤ) (seed : Option ℤ) (k : ℕ) :
    (reset g seed k).ship = Ship.init := rfl

/-- `step` always advances the ship by exactly one `Ship.update`. -/
theorem step_ship (g : ℕ → ℤ) (st : EnvState) (a : Bool)
    (st' : EnvState) (r : ℚ) (t : Bool) (h : step g st a = some (st', r, t)) :
    st'.ship = st.ship.update a := by
  unfold step at h
  cases hr : recycle g st.rngIdx (st.obstacles.map (moveMark st.ship.x)) with
  | none => rw [hr] at h; cases h
  | some p =>
      rw [hr] at h
      cases h
      rfl

/-- `recycle` never fails and preserves the length when it has at least two
obstacles to work with. -/
theorem recycle_some_of_two_le (g : ℕ → ℤ) (k : ℕ) (l : List Obstacle)
    (h2 : 2 ≤ l.length) :
    ∃ l' k', recycle g k l = some (l', k') ∧ l'.length = l.length := by
  match l with
  | [] => simp at h2
  | h :: t =>
      by_cases htrig : h.x + OBSTACLE_WIDTH < 0
      · have ht : t ≠ [] := by
          intro he
          subst he
          simp at h2
        obtain ⟨last, hlast⟩ := Option.isSome_iff_exists.mp
          (List.getLast?_isSome.mpr ht)
        refine ⟨t ++ [mkObstacle (last.x + 400) (g k)], k + 1, ?_, ?_⟩
        · simp [recycle, htrig, hlast]
        · simp
      · exact ⟨h :: t, k, by simp [recycle, htrig], rfl⟩

/-- `step` succeeds whenever the state has at least two obstacles, and then
keeps the obstacle count. -/
theorem step_some_of_two_le (g : ℕ → ℤ) (st : EnvState) (a : Bool)
    (h2 : 2 ≤ st.obstacles.length) :
    ∃ st' r t, step g st a = some (st', r, t) ∧
      st'.ship = st.ship.update a ∧
      st'.obstacles.length = st.obstacles.length := by
  have hm : 2 ≤ (st.obstacles.map (moveMark st.ship.x)).length := by
    simpa using h2
  obtain ⟨l', k', hr, hl⟩ :=
    recycle_some_of_two_le g st.rngIdx (st.obstacles.map (moveMark st.ship.x)) hm
  refine ⟨{ ship := st.ship.update a, obstacles := l',
            score := st.score + st.obstacles.countP (newlyPassed st.ship.x),
            passed_obstacles :=
              st.passed_obstacles + st.obstacles.countP (newlyPassed st.ship.x),
            rngIdx := k', npSeed := st.npSeed },
          if check_collision (st.ship.update a) l' then -100
          else 25 * (st.obstacles.countP (newlyPassed st.ship.x) : ℚ) + 1/10,
          check_collision (st.ship.update a) l', ?_, rfl, ?_⟩
  · unfold step
    rw [hr]
  · simpa using hl

/-- Running a list of actions from a state with at least two obstacles
always succeeds; the final ship is the fold of `Ship.update` over the
actions. -/
theorem runSteps_some_of_two_le (g : ℕ → ℤ) (acts : List Bool)
    (st : EnvState) (h2 : 2 ≤ st.obstacles.length) :
    ∃ st', runSteps g acts st = some st' ∧
      st'.ship = acts.foldl Ship.update st.ship ∧
      st'.obstacles.length = st.obstacles.length := by
  induction acts generalizing st with
  | nil => exact ⟨st, rfl, rfl, rfl⟩
  | cons a rest ih =>
      obtain ⟨st1, r, t, hs, hship, hlen⟩ := step_some_of_two_le g st a h2
      obtain ⟨st', hrun, hfold, hlen'⟩ := ih st1 (hlen ▸ h2)
      refine ⟨st', ?_, ?_, hlen ▸ hlen'⟩
      · unfold runSteps
        rw [hs]
        exact hrun
      · rw [hfold, hship]
        rfl

/-- Ship state after `n` consecutive maximal-thrust updates. -/
def thrustfall : ℕ → Ship
  | 0 => Ship.init
  | n + 1 => Ship.update (thrustfall n) true

/-- Closed form of the thrust trajectory: each tick adds `-10 + 0.5 = -9.5`
to the velocity, and the new velocity to `y`. -/
theorem thrustfall_closed (n : ℕ) :
    (thrustfall n).velocity = -(19/2) * n ∧
      (thrustfall n).y = 300 - (19/4) * n * (n + 1) := by
  induction n with
  | zero => simp [thrustfall, Ship.init]
  | succ n ih =>
      obtain ⟨hv, hy⟩ := ih
      constructor
      · simp only [thrustfall, Ship.update, THRUST, GRAVITY, hv]
        push_cast
        ring
      · simp only [thrustfall, Ship.update, THRUST, GRAVITY, hv, hy]
        push_cast
        ring

theorem foldl_update_replicate_true (n : ℕ) :
    (List.replicate n true).foldl Ship.update Ship.init = thrustfall n := by
  have key : ∀ m s, (List.replicate m true).foldl Ship.update s =
      (fun s => Ship.update s true)^[m] s := by
    intro m
    induction m with
    | zero => intro s; rfl
    | succ m ih =>
        intro s
        rw [List.replicate_succ, List.foldl_cons, ih,
          Function.iterate_succ_apply]
  have key2 : ∀ m, (fun s => Ship.update s true)^[m] Ship.init = thrustfall m := by
    intro m
    induction m with
    | zero => rfl
    | succ m ih => rw [Function.iterate_succ_apply', ih]; rfl
  rw [key, key2]

/-- Ship state after `n` consecutive no-thrust updates (free fall),
starting from the reset ship (`y = 300`, zero velocity). -/
def freefall : ℕ → Ship
  | 0 => Ship.init
  | n + 1 => Ship.update (freefall n) false

/-- Closed form of the free-fall trajectory: each tick adds `0.5` to the
velocity and the new velocity to `y`. -/
theorem freefall_closed (n : ℕ) :
    (freefall n).velocity = (n : ℚ) * GRAVITY ∧
      (freefall n).y = 300 + (1/4) * n * (n + 1) := by
  induction n with
  | zero => simp [freefall, Ship.init]
  | succ n ih =>
      obtain ⟨hv, hy⟩ := ih
      constructor
      · simp only [freefall, Ship.update, GRAVITY, hv]
        push_cast
        ring
      · simp only [freefall, Ship.update, GRAVITY, hv, hy]
        push_cast
        ring

/-- The velocity component of the observation is `velocity / 15` in both
branches of `_get_obs`. -/
theorem get_obs_velocity (st : EnvState) :
    (get_obs st).2.1 = st.ship.velocity / 15 := by
  cases h : nextObstacle st.ship.x st.obstacles <;> simp [get_obs, h]

-- ## Pointwise facts about the per-obstacle loop body

theorem moveMark_x (sx : ℤ) (o : Obstacle) : (moveMark sx o).x = o.x - OBSTACLE_SPEED := by
  unfold moveMark
  split <;> rfl

theorem moveMark_gap (sx : ℤ) (o : Obstacle) :
    (moveMark sx o).gap_center_y = o.gap_center_y := by
  unfold moveMark
  split <;> rfl

theorem moveMark_passed_of_passed (sx : ℤ) (o : Obstacle) (h : o.passed = true) :
    (moveMark sx o).passed = true := by
  unfold moveMark
  split
  · rfl
  · exact h

theorem newlyPassed_false_of_passed (sx : ℤ) (o : Obstacle) (h : o.passed = true) :
    newlyPassed sx o = false := by
  simp [newlyPassed, h]

theorem newlyPassed_true_elim (sx : ℤ) (o : Obstacle) (h : newlyPassed sx o = true) :
    o.passed = false ∧ (moveMark sx o).passed = true := by
  unfold newlyPassed at h
  simp only [Bool.and_eq_true, decide_eq_true_eq, Bool.not_eq_true'] at h
  obtain ⟨hx, hp⟩ := h
  refine ⟨hp, ?_⟩
  unfold moveMark
  rw [if_pos ⟨hx, hp⟩]

theorem mkObstacle_gap_bounds (x r : ℤ) :
    100 ≤ (mkObstacle x r).gap_center_y ∧ (mkObstacle x r).gap_center_y ≤ 500 := by
  unfold mkObstacle randint
  constructor
  · have := Int.emod_nonneg r (by norm_num : (500 - 100 + 1 : ℤ) ≠ 0)
    simp only
    omega
  · have := Int.emod_lt_of_pos r (by norm_num : (0 : ℤ) < 500 - 100 + 1)
    simp only
    omega

theorem mkObstacle_x (x r : ℤ) : (mkObstacle x r).x = x := rfl

-- ## The reachable-state invariant

/-- Gap centers drawn by `Obstacle.__init__` always lie in `[100, 500]`. -/
def gapOK (o : Obstacle) : Prop :=
  100 ≤ o.gap_center_y ∧ o.gap_center_y ≤ 500

/-- Consecutive obstacles are spaced exactly `WIDTH // 2 = 400` apart. -/
def spaced400 (l : List Obstacle) : Prop :=
  List.Chain' (fun a b => b.x = a.x + 400) l

/-- The head obstacle never drifts further left than `-80` (it is recycled
first) and never sits right of its reset position `800`. -/
def headOK (l : List Obstacle) : Prop :=
  ∀ h, l.head? = some h → -80 ≤ h.x ∧ h.x ≤ 800

/-- Invariant of the obstacle list maintained by `reset` and `step`. -/
def ObsInv (l : List Obstacle) : Prop :=
  l.length = 5 ∧ (∀ o ∈ l, gapOK o) ∧ spaced400 l ∧ headOK l

/-- Invariant of the whole environment state. -/
def EnvInv (st : EnvState) : Prop :=
  st.ship.x = 100 ∧ ObsInv st.obstacles

theorem reset_obstacles_eq (g : ℕ → ℤ) (seed : Option ℤ) (k : ℕ) :
    (reset g seed k).obstacles =
      [mkObstacle 800 (g k), mkObstacle 1200 (g (k+1)), mkObstacle 1600 (g (k+2)),
       mkObstacle 2000 (g (k+3)), mkObstacle 2400 (g (k+4))] := by
  have h5 : List.range 5 = [0, 1, 2, 3, 4] := by decide
  simp only [reset, h5, List.map_cons, List.map_nil]
  norm_num

theorem EnvInv_reset (g : ℕ → ℤ) (seed : Option ℤ) (k : ℕ) :
    EnvInv (reset g seed k) := by
  refine ⟨rfl, ?_, ?_, ?_, ?_⟩
  · rw [reset_obstacles_eq]
    rfl
  · rw [reset_obstacles_eq]
    intro o ho
    simp only [List.mem_cons, List.not_mem_nil, or_false] at ho
    rcases ho with h | h | h | h | h <;> (subst h; exact mkObstacle_gap_bounds _ _)
  · rw [reset_obstacles_eq]
    unfold spaced400
    simp [List.chain'_cons, mkObstacle_x, List.chain'_singleton]
  · rw [reset_obstacles_eq]
    intro h hh
    simp only [List.head?_cons, Option.some.injEq] at hh
    subst hh
    rw [mkObstacle_x]
    norm_num

/-- The per-obstacle loop preserves the obstacle invariant, weakening the
head window by the move distance `5`. -/
theorem ObsInv_moved (sx : ℤ) (l : List Obstacle) (hInv : ObsInv l) :
    (l.map (moveMark sx)).length = 5 ∧
      (∀ o ∈ l.map (moveMark sx), gapOK o) ∧
      spaced400 (l.map (moveMark sx)) ∧
      (∀ h, (l.map (moveMark sx)).head? = some h → -85 ≤ h.x ∧ h.x ≤ 795) := by
  obtain ⟨hlen, hgap, hsp, hhead⟩ := hInv
  refine ⟨by simpa using hlen, ?_, ?_, ?_⟩
  · intro o ho
    obtain ⟨o0, ho0, rfl⟩ := List.mem_map.mp ho
    unfold gapOK
    rw [moveMark_gap]
    exact hgap o0 ho0
  · unfold spaced400
    rw [List.chain'_map]
    exact hsp.imp (fun {a b} hab => by
      rw [moveMark_x, moveMark_x, hab, OBSTACLE_SPEED]
      ring)
  · intro h hh
    rw [List.head?_map] at hh
    cases hl : l.head? with
    | none => rw [hl] at hh; cases hh
    | some h0 =>
        rw [hl] at hh
        simp only [Option.map_some', Option.some.injEq] at hh
        subst hh
        obtain ⟨hlb, hub⟩ := hhead h0 hl
        rw [moveMark_x, OBSTACLE_SPEED]
        omega

/-- Recycling restores the obstacle invariant. -/
theorem ObsInv_recycle (g : ℕ → ℤ) (k : ℕ) (m : List Obstacle)
    (hlen : m.length = 5) (hgap : ∀ o ∈ m, gapOK o) (hsp : spaced400 m)
    (hhead : ∀ h, m.head? = some h → -85 ≤ h.x ∧ h.x ≤ 795)
    (l' : List Obstacle) (k' : ℕ) (hr : recycle g k m = some (l', k')) :
    ObsInv l' := by
  match m, hlen with
  | h :: t, hlen =>
    simp only [recycle] at hr
    by_cases htrig : h.x + OBSTACLE_WIDTH < 0
    · rw [if_pos htrig] at hr
      cases hlast : t.getLast? with
      | none => rw [hlast] at hr; cases hr
      | some last =>
          rw [hlast] at hr
          simp only [Option.some.injEq, Prod.mk.injEq] at hr
          obtain ⟨hl', _⟩ := hr
          subst hl'
          have hlen_t : t.length = 4 := by simpa using hlen
          have htail_sp : spaced400 t := hsp.tail
          have hnew_gap := mkObstacle_gap_bounds (last.x + 400) (g k)
          refine ⟨by simp [hlen_t], ?_, ?_, ?_⟩
          · intro o ho
            rcases List.mem_append.mp ho with hmem | hmem
            · exact hgap o (List.mem_cons_of_mem h hmem)
            · simp only [List.mem_singleton] at hmem
              subst hmem
              exact hnew_gap
          · unfold spaced400
            rw [List.chain'_append]
            refine ⟨htail_sp, List.chain'_singleton _, ?_⟩
            intro x hx y hy
            simp only [List.head?_cons, Option.mem_def, Option.some.injEq] at hy
            subst hy
            rw [Option.mem_def, hlast, Option.some.injEq] at hx
            subst hx
            rw [mkObstacle_x]
          · intro hd hhd
            match t, hlen_t with
            | t0 :: t1, _ =>
              simp only [List.cons_append, List.head?_cons, Option.some.injEq] at hhd
              subst hhd
              have hrel : t0.x = h.x + 400 := by
                have := List.chain'_cons.mp hsp
                exact this.1
              obtain ⟨hlb, hub⟩ := hhead h rfl
              simp only [OBSTACLE_WIDTH] at htrig
              rw [hrel]
              constructor <;> omega
    · rw [if_neg htrig] at hr
      simp only [Option.some.injEq, Prod.mk.injEq] at hr
      obtain ⟨hl', _⟩ := hr
      subst hl'
      refine ⟨hlen, hgap, hsp, ?_⟩
      intro hd hhd
      simp only [List.head?_cons, Option.some.injEq] at hhd
      subst hhd
      obtain ⟨hlb, hub⟩ := hhead h rfl
      simp only [OBSTACLE_WIDTH] at htrig
      constructor <;> omega

/-- `step` preserves the environment invariant. -/
theorem EnvInv_step (g : ℕ → ℤ) (st : EnvState) (a : Bool)
    (st' : EnvState) (r : ℚ) (t : Bool)
    (hInv : EnvInv st) (h : step g st a = some (st', r, t)) : EnvInv st' := by
  obtain ⟨hx, hObs⟩ := hInv
  constructor
  · rw [step_ship g st a st' r t h]
    unfold Ship.update
    exact hx
  · unfold step at h
    cases hr : recycle g st.rngIdx (st.obstacles.map (moveMark st.ship.x)) with
    | none => rw [hr] at h; cases h
    | some p =>
        obtain ⟨obs2, k2⟩ := p
        rw [hr] at h
        simp only [Option.some.injEq, Prod.mk.injEq] at h
        obtain ⟨hst, -⟩ := h
        subst hst
        obtain ⟨hlen, hgap, hsp, hhead⟩ := ObsInv_moved st.ship.x st.obstacles hObs
        exact ObsInv_recycle g st.rngIdx _ hlen hgap hsp hhead obs2 k2 hr

/-- Every reachable state satisfies the invariant. -/
theorem EnvInv_reachable (g : ℕ → ℤ) (st : EnvState) (h : Reachable g st) :
    EnvInv st := by
  induction h with
  | reset seed k => exact EnvInv_reset g seed k
  | step st a st' r t _ hstep ih => exact EnvInv_step g st a st' r t ih hstep

-- ## Sortedness of the obstacle list and the next-obstacle scan

instance : IsTrans Obstacle (fun a b : Obstacle => a.x < b.x) :=
  ⟨fun _ _ _ hab hbc => lt_trans hab hbc⟩

theorem spaced400_chain_lt (l : List Obstacle) (h : spaced400 l) :
    List.Chain' (fun a b : Obstacle => a.x < b.x) l :=
  h.imp (fun hab => by omega)

/-- In a list sorted strictly by `key`, `find?` returns an element of
minimal key among those satisfying the predicate. -/
theorem find?_min_of_pairwise {α : Type} (key : α → ℤ) (p : α → Bool) :
    ∀ (l : List α), List.Pairwise (fun a b => key a < key b) l →
      ∀ o, l.find? p = some o → ∀ o' ∈ l, p o' = true → key o ≤ key o' := by
  intro l
  induction l with
  | nil => intro _ o h; cases h
  | cons a t ih =>
      intro hpw o h o' ho' hp'
      by_cases hpa : p a = true
      · rw [List.find?_cons_of_pos _ hpa] at h
        cases h
        rcases List.mem_cons.mp ho' with hh | hh
        · subst hh; exact le_refl _
        · exact le_of_lt ((List.pairwise_cons.mp hpw).1 o' hh)
      · rw [List.find?_cons_of_neg _ hpa] at h
        rcases List.mem_cons.mp ho' with hh | hh
        · subst hh; exact absurd hp' hpa
        · exact ih (List.pairwise_cons.mp hpw).2 o h o' hh hp'

/-- The obstacle found by the next-obstacle scan has its `x` in
`[-80, 800]` whenever the list satisfies the spacing and head invariants. -/
theorem nextObstacle_x_bounds :
    ∀ (l : List Obstacle), spaced400 l → headOK l →
      ∀ o, nextObstacle 100 l = some o → -80 ≤ o.x ∧ o.x ≤ 800 := by
  intro l
  induction l with
  | nil => intro _ _ o h; cases h
  | cons a t ih =>
      intro hsp hhead o h
      unfold nextObstacle at h
      by_cases hpa : (decide (a.x + OBSTACLE_WIDTH > 100)) = true
      · rw [@List.find?_cons_of_pos _ (fun o => decide (o.x + OBSTACLE_WIDTH > 100)) a t hpa] at h
        cases h
        exact hhead a rfl
      · rw [@List.find?_cons_of_neg _ (fun o => decide (o.x + OBSTACLE_WIDTH > 100)) a t hpa] at h
        have ha : a.x + OBSTACLE_WIDTH ≤ 100 := by
          simpa using hpa
        obtain ⟨halb, haub⟩ := hhead a rfl
        refine ih hsp.tail ?_ o h
        intro hd hhd
        match t, hhd with
        | t0 :: t1, hhd =>
          simp only [List.head?_cons, Option.some.injEq] at hhd
          subst hhd
          have hrel : t0.x = a.x + 400 := (List.chain'_cons.mp hsp).1
          simp only [OBSTACLE_WIDTH] at ha
          constructor <;> omega

-- ## C1: the clamp invariant on the ship's vertical position

/-- The clamp in `Ship.update` keeps the integer rect position in
`[0, HEIGHT - SHIP_HEIGHT] = [0, 570]`. -/
theorem update_rect_bounds (s : Ship) (a : Bool) :
    0 ≤ (s.update a).rect_y ∧ (s.update a).rect_y ≤ HEIGHT - SHIP_HEIGHT := by
  constructor
  · exact le_max_left 0 _
  · exact max_le (by norm_num [HEIGHT, SHIP_HEIGHT]) (min_le_right _ _)

/-- C1, refuted as stated: running the environment from `reset` with
maximal thrust for 8 ticks leaves the ship's float attribute `y` at `-42`,
outside `[0, 570]` — `Ship.update` clamps only the integer `rect.y`, never
`self.y`. -/
theorem C1_counterexample :
    ((runSteps zeroStream (List.replicate 8 true) (reset zeroStream none 0)).map
      (fun st => st.ship.y)) = some (-42) ∧ ¬ (0 ≤ (-42 : ℚ)) := by
  constructor
  · obtain ⟨st', hrun, hship, _⟩ :=
      runSteps_some_of_two_le zeroStream (List.replicate 8 true)
        (reset zeroStream none 0) (by rw [reset_obstacles_length]; norm_num)
    have hy : st'.ship.y = -42 := by
      rw [hship, reset_ship, foldl_update_replicate_true,
        (thrustfall_closed 8).2]
      norm_num
    rw [hrun, Option.map_some', hy]
  · norm_num

/-- C1, amended: after every tick of every episode the *rect* position of
the ship (the value the clamp in `Ship.update` acts on) lies in
`[0, HEIGHT - SHIP_HEIGHT]`; the float attribute `y` is not clamped. -/
theorem C1_rect_clamped (g : ℕ → ℤ) (st : EnvState) (h : Reachable g st) :
    0 ≤ st.ship.rect_y ∧ st.ship.rect_y ≤ HEIGHT - SHIP_HEIGHT := by
  induction h with
  | reset seed k =>
      constructor <;> norm_num [reset, Ship.init, HEIGHT, SHIP_HEIGHT]
  | step st a st' r t _ hstep _ =>
      rw [step_ship g st a st' r t hstep]
      exact update_rect_bounds st.ship a

theorem C1_rect_clamped_witness :
    0 ≤ (reset zeroStream none 0).ship.rect_y ∧
      (reset zeroStream none 0).ship.rect_y ≤ HEIGHT - SHIP_HEIGHT :=
  C1_rect_clamped zeroStream (reset zeroStream none 0)
    (Reachable.reset none 0)

-- ## C3: the free-fall scenario

/-- C3, refuted as stated: the code's gravity constant is `0.5`, not
`0.35`, so already after one no-thrust tick the velocity is `0.5` and not
`1 · 0.35`. -/
theorem C3_counterexample :
    GRAVITY ≠ 35/100 ∧ (freefall 1).velocity = 1/2 ∧
      ¬ ((freefall 1).velocity = 1 * (35/100)) := by
  refine ⟨by norm_num [GRAVITY], ?_, ?_⟩
  · rw [(freefall_closed 1).1]
    norm_num [GRAVITY]
  · rw [(freefall_closed 1).1]
    norm_num [GRAVITY]

/-- C3, amended: under the code's `GRAVITY = 0.5`, free fall from `y = 300`
with zero velocity gives, after each tick `n` from 1 to 10, velocity
`n · GRAVITY` and position `300` plus the running sum of the per-tick
velocities; the position stays inside `[0, 570]`, so no clamping occurs. -/
theorem sum_Icc_mul_gravity (n : ℕ) :
    ∑ i in Finset.Icc 1 n, (i : ℚ) * GRAVITY = (1/4) * n * (n + 1) := by
  induction n with
  | zero => simp
  | succ n ih =>
      rw [Finset.sum_Icc_succ_top (Nat.one_le_iff_ne_zero.mpr (Nat.succ_ne_zero n)), ih]
      push_cast
      simp only [GRAVITY]
      ring

theorem C3_freefall (n : ℕ) (h1 : 1 ≤ n) (h10 : n ≤ 10) :
    (freefall n).velocity = (n : ℚ) * GRAVITY ∧
      (freefall n).y = 300 + ∑ i in Finset.Icc 1 n, (i : ℚ) * GRAVITY ∧
      0 ≤ (freefall n).y ∧ (freefall n).y ≤ 570 := by
  have hsum := sum_Icc_mul_gravity n
  obtain ⟨hv, hy⟩ := freefall_closed n
  have hn : (n : ℚ) ≤ 10 := by exact_mod_cast h10
  have hn0 : (0 : ℚ) ≤ n := by positivity
  refine ⟨hv, ?_, ?_, ?_⟩
  · rw [hy, hsum]
  · rw [hy]
    nlinarith
  · rw [hy]
    nlinarith

theorem C3_freefall_witness :
    ((1 : ℕ) ≤ 10 ∧ (10 : ℕ) ≤ 10) ∧
      ((freefall 10).velocity = ((10 : ℕ) : ℚ) * GRAVITY ∧
        (freefall 10).y = 300 + ∑ i in Finset.Icc (1 : ℕ) 10, (i : ℚ) * GRAVITY ∧
        0 ≤ (freefall 10).y ∧ (freefall 10).y ≤ 570) :=
  ⟨⟨by norm_num, by norm_num⟩, C3_freefall 10 (by norm_num) (by norm_num)⟩

-- ## C2: observation bounds

/-- C2, refuted as stated: two consecutive maximal-thrust ticks from reset
drive the velocity to `-19`, so the second observation component is
`-19/15 < -1`; the observation is built unclamped. -/
theorem C2_counterexample :
    ((runSteps zeroStream (List.replicate 2 true) (reset zeroStream none 0)).map
      (fun st => (get_obs st).2.1)) = some (-19/15) ∧
      ¬ (-1 ≤ (-19/15 : ℚ)) := by
  constructor
  · obtain ⟨st', hrun, hship, _⟩ :=
      runSteps_some_of_two_le zeroStream (List.replicate 2 true)
        (reset zeroStream none 0) (by rw [reset_obstacles_length]; norm_num)
    have hv : (get_obs st').2.1 = -19/15 := by
      rw [get_obs_velocity, hship, reset_ship, foldl_update_replicate_true,
        (thrustfall_closed 2).1]
      norm_num
    rw [hrun, Option.map_some', hv]
  · norm_num

/-- C2, amended: in every reachable state the last three observation
components (relative next-obstacle x, normalized gap center, normalized gap
height) lie in `[-1, 1]`; the position and velocity components are built
unclamped and are not so bounded. -/
theorem C2_obs_tail_bounded (g : ℕ → ℤ) (st : EnvState) (h : Reachable g st) :
    (-1 ≤ (get_obs st).2.2.1 ∧ (get_obs st).2.2.1 ≤ 1) ∧
      (-1 ≤ (get_obs st).2.2.2.1 ∧ (get_obs st).2.2.2.1 ≤ 1) ∧
      (-1 ≤ (get_obs st).2.2.2.2 ∧ (get_obs st).2.2.2.2 ≤ 1) := by
  obtain ⟨hx, _, hgap, hsp, hhead⟩ := EnvInv_reachable g st h
  cases hno : nextObstacle st.ship.x st.obstacles with
  | none =>
      simp only [get_obs, hno]
      norm_num
  | some o =>
      have hb := nextObstacle_x_bounds st.obstacles hsp hhead o (hx ▸ hno)
      have hgapo : gapOK o :=
        hgap o (List.mem_of_find?_eq_some hno)
      obtain ⟨hxl, hxu⟩ := hb
      obtain ⟨hgl, hgu⟩ := hgapo
      have hxl' : (-80 : ℚ) ≤ (o.x : ℚ) := by exact_mod_cast hxl
      have hxu' : ((o.x : ℚ)) ≤ 800 := by exact_mod_cast hxu
      have hgl' : (100 : ℚ) ≤ (o.gap_center_y : ℚ) := by exact_mod_cast hgl
      have hgu' : ((o.gap_center_y : ℚ)) ≤ 500 := by exact_mod_cast hgu
      have hno' : nextObstacle 100 st.obstacles = some o := hx ▸ hno
      simp only [get_obs, hx, hno']
      refine ⟨⟨?_, ?_⟩, ⟨?_, ?_⟩, ⟨?_, ?_⟩⟩
      · rw [le_div_iff₀ (by norm_num : (0:ℚ) < 800)]
        push_cast
        linarith
      · rw [div_le_one (by norm_num : (0:ℚ) < 800)]
        push_cast
        linarith
      · rw [le_div_iff₀ (by norm_num : (0:ℚ) < 300)]
        linarith
      · rw [div_le_one (by norm_num : (0:ℚ) < 300)]
        linarith
      · norm_num
      · norm_num

theorem C2_obs_tail_bounded_witness :
    (-1 ≤ (get_obs (reset zeroStream none 0)).2.2.1 ∧
        (get_obs (reset zeroStream none 0)).2.2.1 ≤ 1) ∧
      (-1 ≤ (get_obs (reset zeroStream none 0)).2.2.2.1 ∧
        (get_obs (reset zeroStream none 0)).2.2.2.1 ≤ 1) ∧
      (-1 ≤ (get_obs (reset zeroStream none 0)).2.2.2.2 ∧
        (get_obs (reset zeroStream none 0)).2.2.2.2 ≤ 1) :=
  C2_obs_tail_bounded zeroStream (reset zeroStream none 0)
    (Reachable.reset none 0)

-- ## C5: recycling keeps the count and spacing

/-- C5: whenever the (moved) head obstacle has fully left the screen during
a successful `step`, the head is dropped and exactly one obstacle is
appended at the previous tail's position plus `WIDTH // 2 = 400`, keeping
the obstacle count unchanged. -/
theorem C5_recycle (g : ℕ → ℤ) (st : EnvState) (a : Bool)
    (st' : EnvState) (r : ℚ) (t : Bool) (hd : Obstacle) (rest : List Obstacle)
    (hs : step g st a = some (st', r, t))
    (hm : st.obstacles.map (moveMark st.ship.x) = hd :: rest)
    (htrig : hd.x + OBSTACLE_WIDTH < 0) :
    st'.obstacles.length = st.obstacles.length ∧
      some st'.obstacles = rest.getLast?.map
        (fun last => rest ++ [mkObstacle (last.x + 400) (g st.rngIdx)]) := by
  unfold step at hs
  rw [hm] at hs
  simp only [recycle, if_pos htrig] at hs
  cases hlast : rest.getLast? with
  | none => rw [hlast] at hs; cases hs
  | some last =>
      rw [hlast] at hs
      simp only [Option.some.injEq, Prod.mk.injEq] at hs
      obtain ⟨hst, -⟩ := hs
      have hobs : st'.obstacles = rest ++ [mkObstacle (last.x + 400) (g st.rngIdx)] := by
        rw [← hst]
      constructor
      · have hmap_len : (st.obstacles.map (moveMark st.ship.x)).length =
            st.obstacles.length := List.length_map _ _
        rw [hm] at hmap_len
        rw [hobs]
        simp only [List.length_append, List.length_cons, List.length_nil] at hmap_len ⊢
        omega
      · rw [Option.map_some', hobs]

/-- Decomposition of a successful `step` into its components, used to
evaluate `step` at concrete states. -/
theorem step_build (g : ℕ → ℤ) (st : EnvState) (a : Bool) (s2 : Ship)
    (obs2 : List Obstacle) (k2 : ℕ)
    (hs : st.ship.update a = s2)
    (hr : recycle g st.rngIdx (st.obstacles.map (moveMark st.ship.x)) =
      some (obs2, k2)) :
    step g st a = some ({ ship := s2, obstacles := obs2,
                          score := st.score + st.obstacles.countP (newlyPassed st.ship.x),
                          passed_obstacles := st.passed_obstacles + st.obstacles.countP (newlyPassed st.ship.x),
                          rngIdx := k2, npSeed := st.npSeed },
      if check_collision s2 obs2 then -100
      else 25 * (st.obstacles.countP (newlyPassed st.ship.x) : ℚ) + 1/10,
      check_collision s2 obs2) := by
  subst hs
  unfold step
  rw [hr]

-- Concrete fixture for C5: the head obstacle leaves the screen this tick.

def shipR : Ship := { x := 100, y := 300, velocity := -(1/2), rect_y := 300 }

def shipR' : Ship := { x := 100, y := 300, velocity := 0, rect_y := 300 }

def obsR : List Obstacle :=
  [⟨-78, 300, true⟩, ⟨322, 300, false⟩, ⟨722, 300, false⟩,
   ⟨1122, 300, false⟩, ⟨1522, 300, false⟩]

def obsR' : List Obstacle :=
  [⟨317, 300, false⟩, ⟨717, 300, false⟩, ⟨1117, 300, false⟩,
   ⟨1517, 300, false⟩, ⟨1917, 100, false⟩]

def hdR : Obstacle := ⟨-83, 300, true⟩

def restR : List Obstacle :=
  [⟨317, 300, false⟩, ⟨717, 300, false⟩, ⟨1117, 300, false⟩,
   ⟨1517, 300, false⟩]

def stR : EnvState :=
  { ship := shipR, obstacles := obsR, score := 3, passed_obstacles := 3,
    rngIdx := 7, npSeed := none }

def stR' : EnvState :=
  { ship := shipR', obstacles := obsR', score := 3, passed_obstacles := 3,
    rngIdx := 8, npSeed := none }

theorem shipR_update : stR.ship.update false = shipR' := by
  unfold stR shipR Ship.update shipR' truncZ
  simp only [THRUST, GRAVITY, HEIGHT, SHIP_HEIGHT, Ship.mk.injEq]
  norm_num [min_def, max_def]

theorem step_stR : step zeroStream stR false = some (stR', 1/10, false) := by
  have hr : recycle zeroStream stR.rngIdx
      (stR.obstacles.map (moveMark stR.ship.x)) = some (obsR', 8) := by decide
  have hcol : check_collision shipR' obsR' = false := by decide
  have hcount : stR.obstacles.countP (newlyPassed stR.ship.x) = 0 := by decide
  have hb := step_build zeroStream stR false shipR' obsR' 8 shipR_update hr
  rw [hcount, hcol] at hb
  norm_num at hb
  simpa [stR', stR] using hb

theorem C5_recycle_witness :
    (step zeroStream stR false = some (stR', 1/10, false) ∧
        stR.obstacles.map (moveMark stR.ship.x) = hdR :: restR ∧
        hdR.x + OBSTACLE_WIDTH < 0) ∧
      (stR'.obstacles.length = stR.obstacles.length ∧
        some stR'.obstacles = restR.getLast?.map
          (fun last => restR ++ [mkObstacle (last.x + 400) (zeroStream stR.rngIdx)])) := by
  have hm : stR.obstacles.map (moveMark stR.ship.x) = hdR :: restR := by decide
  have htrig : hdR.x + OBSTACLE_WIDTH < 0 := by decide
  exact ⟨⟨step_stR, hm, htrig⟩,
    C5_recycle zeroStream stR false stR' (1/10) false hdR restR step_stR hm htrig⟩

-- ## C6: monotone order and the next-obstacle linear scan

/-- C6: in every reachable state the obstacle list is strictly increasing
in `x`, and the linear scan of `_get_obs` returns an upcoming obstacle of
minimal `x`. -/
theorem C6_sorted_scan (g : ℕ → ℤ) (st : EnvState) (h : Reachable g st) :
    List.Chain' (fun a b : Obstacle => a.x < b.x) st.obstacles ∧
      ∀ o, nextObstacle st.ship.x st.obstacles = some o →
        o.x + OBSTACLE_WIDTH > st.ship.x ∧
        ∀ o' ∈ st.obstacles, o'.x + OBSTACLE_WIDTH > st.ship.x → o.x ≤ o'.x := by
  obtain ⟨_, _, _, hsp, _⟩ := EnvInv_reachable g st h
  have hlt := spaced400_chain_lt st.obstacles hsp
  refine ⟨hlt, ?_⟩
  intro o ho
  unfold nextObstacle at ho
  have hpred := List.find?_some ho
  refine ⟨by simpa using hpred, ?_⟩
  intro o' ho' hp'
  exact find?_min_of_pairwise (fun ob => ob.x) _ st.obstacles
    (List.chain'_iff_pairwise.mp hlt) o ho o' ho' (by simpa using hp')

theorem C6_sorted_scan_witness :
    List.Chain' (fun a b : Obstacle => a.x < b.x) (reset zeroStream none 0).obstacles ∧
      ∀ o, nextObstacle (reset zeroStream none 0).ship.x
          (reset zeroStream none 0).obstacles = some o →
        o.x + OBSTACLE_WIDTH > (reset zeroStream none 0).ship.x ∧
        ∀ o' ∈ (reset zeroStream none 0).obstacles,
          o'.x + OBSTACLE_WIDTH > (reset zeroStream none 0).ship.x → o.x ≤ o'.x :=
  C6_sorted_scan zeroStream (reset zeroStream none 0) (Reachable.reset none 0)

-- ## C4: a collision tick overrides the reward

/-- C4: whenever `check_collision` holds on the post-update state produced
by a successful `step`, the returned reward is exactly `-100` and
`terminated` is `true` — the penalty replaces any pass rewards accumulated
in the same tick. -/
theorem C4_collision_reward (g : ℕ → ℤ) (st : EnvState) (a : Bool)
    (st' : EnvState) (r : ℚ) (t : Bool)
    (h : step g st a = some (st', r, t))
    (hc : check_collision st'.ship st'.obstacles = true) :
    r = -100 ∧ t = true := by
  unfold step at h
  cases hr : recycle g st.rngIdx (st.obstacles.map (moveMark st.ship.x)) with
  | none => rw [hr] at h; cases h
  | some p =>
      obtain ⟨obs2, k2⟩ := p
      rw [hr] at h
      simp only [Option.some.injEq, Prod.mk.injEq] at h
      obtain ⟨hst, hrw, ht⟩ := h
      subst hst
      subst hrw
      subst ht
      have hc' : check_collision (st.ship.update a) obs2 = true := hc
      rw [hc']
      simp

-- Concrete fixture for C4: a ship one tick away from hitting the floor.

def shipC : Ship := { x := 100, y := 580, velocity := -(1/2), rect_y := 570 }

def shipC' : Ship := { x := 100, y := 580, velocity := 0, rect_y := 570 }

def obsC : List Obstacle :=
  [⟨800, 300, false⟩, ⟨1200, 300, false⟩, ⟨1600, 300, false⟩,
   ⟨2000, 300, false⟩, ⟨2400, 300, false⟩]

def obsC' : List Obstacle :=
  [⟨795, 300, false⟩, ⟨1195, 300, false⟩, ⟨1595, 300, false⟩,
   ⟨1995, 300, false⟩, ⟨2395, 300, false⟩]

def stC : EnvState :=
  { ship := shipC, obstacles := obsC, score := 0, passed_obstacles := 0,
    rngIdx := 0, npSeed := none }

def stC' : EnvState :=
  { ship := shipC', obstacles := obsC', score := 0, passed_obstacles := 0,
    rngIdx := 0, npSeed := none }

theorem shipC_update : stC.ship.update false = shipC' := by
  unfold stC shipC Ship.update shipC' truncZ
  simp only [THRUST, GRAVITY, HEIGHT, SHIP_HEIGHT, Ship.mk.injEq]
  norm_num [min_def, max_def]

theorem C4_collision_reward_witness :
    (step zeroStream stC false = some (stC', -100, true) ∧
        check_collision stC'.ship stC'.obstacles = true) ∧
      ((-100 : ℚ) = -100 ∧ true = true) := by
  have hr : recycle zeroStream stC.rngIdx
      (stC.obstacles.map (moveMark stC.ship.x)) = some (obsC', 0) := by decide
  have hc : check_collision shipC' obsC' = true := by decide
  have hcount : stC.obstacles.countP (newlyPassed stC.ship.x) = 0 := by decide
  have h1 : step zeroStream stC false = some (stC', -100, true) := by
    have hb := step_build zeroStream stC false shipC' obsC' 0 shipC_update hr
    rw [hcount, hc] at hb
    simpa [stC', stC] using hb
  have h2 : check_collision stC'.ship stC'.obstacles = true := hc
  exact ⟨⟨h1, h2⟩, C4_collision_reward zeroStream stC false stC' (-100) true h1 h2⟩

-- ## C8: an obstacle is marked passed at most once

/-- C8: a successful `step` adds exactly one score unit per obstacle newly
marked this tick; an obstacle already `passed` stays `passed` and is never
counted again, and a newly passed obstacle was unmarked, ends up marked,
and cannot be newly passed on any later tick. -/
theorem C8_passed_once (g : ℕ → ℤ) (st : EnvState) (a : Bool)
    (st' : EnvState) (r : ℚ) (t : Bool) (o : Obstacle)
    (h : step g st a = some (st', r, t)) (ho : o ∈ st.obstacles) :
    st'.score = st.score + st.obstacles.countP (newlyPassed st.ship.x) ∧
      (o.passed = true → newlyPassed st.ship.x o = false ∧
        (moveMark st.ship.x o).passed = true) ∧
      (newlyPassed st.ship.x o = true → o.passed = false ∧
        (moveMark st.ship.x o).passed = true ∧
        newlyPassed st.ship.x (moveMark st.ship.x o) = false) := by
  refine ⟨?_, ?_, ?_⟩
  · unfold step at h
    cases hr : recycle g st.rngIdx (st.obstacles.map (moveMark st.ship.x)) with
    | none => rw [hr] at h; cases h
    | some p =>
        obtain ⟨obs2, k2⟩ := p
        rw [hr] at h
        simp only [Option.some.injEq, Prod.mk.injEq] at h
        obtain ⟨hst, -⟩ := h
        rw [← hst]
  · intro hp
    exact ⟨newlyPassed_false_of_passed _ o hp, moveMark_passed_of_passed _ o hp⟩
  · intro hnp
    obtain ⟨hp, hm⟩ := newlyPassed_true_elim _ o hnp
    exact ⟨hp, hm, newlyPassed_false_of_passed _ _ hm⟩

-- Concrete fixture for C8: the head obstacle crosses the ship this tick.

def shipP' : Ship := { x := 100, y := 601/2, velocity := 1/2, rect_y := 300 }

def obsP : List Obstacle :=
  [⟨24, 300, false⟩, ⟨424, 300, false⟩, ⟨824, 300, false⟩,
   ⟨1224, 300, false⟩, ⟨1624, 300, false⟩]

def obsP' : List Obstacle :=
  [⟨19, 300, true⟩, ⟨419, 300, false⟩, ⟨819, 300, false⟩,
   ⟨1219, 300, false⟩, ⟨1619, 300, false⟩]

def stP : EnvState :=
  { ship := Ship.init, obstacles := obsP, score := 0, passed_obstacles := 0,
    rngIdx := 0, npSeed := none }

def stP' : EnvState :=
  { ship := shipP', obstacles := obsP', score := 1, passed_obstacles := 1,
    rngIdx := 0, npSeed := none }

def oP : Obstacle := ⟨24, 300, false⟩

theorem shipP_update : stP.ship.update false = shipP' := by
  unfold stP Ship.init Ship.update shipP' truncZ
  simp only [THRUST, GRAVITY, HEIGHT, SHIP_HEIGHT, Ship.mk.injEq]
  norm_num [min_def, max_def]

theorem step_stP : step zeroStream stP false = some (stP', 251/10, false) := by
  have hr : recycle zeroStream stP.rngIdx
      (stP.obstacles.map (moveMark stP.ship.x)) = some (obsP', 0) := by decide
  have hc : check_collision shipP' obsP' = false := by decide
  have hcount : stP.obstacles.countP (newlyPassed stP.ship.x) = 1 := by decide
  have hb := step_build zeroStream stP false shipP' obsP' 0 shipP_update hr
  rw [hcount, hc] at hb
  norm_num at hb
  simpa [stP', stP] using hb

theorem C8_passed_once_witness :
    (step zeroStream stP false = some (stP', 251/10, false) ∧ oP ∈ stP.obstacles) ∧
      (stP'.score = stP.score + stP.obstacles.countP (newlyPassed stP.ship.x) ∧
        (oP.passed = true → newlyPassed stP.ship.x oP = false ∧
          (moveMark stP.ship.x oP).passed = true) ∧
        (newlyPassed stP.ship.x oP = true → oP.passed = false ∧
          (moveMark stP.ship.x oP).passed = true ∧
          newlyPassed stP.ship.x (moveMark stP.ship.x oP) = false)) := by
  have ho : oP ∈ stP.obstacles := by decide
  exact ⟨⟨step_stP, ho⟩,
    C8_passed_once zeroStream stP false stP' (251/10) false oP step_stP ho⟩

-- ## C7: characterization of check_collision

/-- Overlap of two axis-aligned rectangles read as half-open spans
`[x, x+w) × [y, y+h)`: both interval intersections are non-empty.
Follows the spec's wording; to be compared against `check_collision`. -/
def rectOverlap (ax ay aw ah bx bY bw bh : ℤ) : Prop :=
  max ax bx < min (ax + aw) (bx + bw) ∧ max ay bY < min (ay + ah) (bY + bh)

/-- The spec's reading of `check_collision`: the ship's box touches the top
or bottom screen edge, or overlaps some obstacle's top or bottom rect.
Follows the spec's wording; to be compared against `check_collision`. -/
def collisionSpec (s : Ship) (obstacles : List Obstacle) : Prop :=
  s.rect_y = 0 ∨ s.rect_y + SHIP_HEIGHT = HEIGHT ∨
    ∃ o ∈ obstacles,
      rectOverlap s.x s.rect_y SHIP_WIDTH SHIP_HEIGHT
          o.x 0 OBSTACLE_WIDTH (o.gap_center_y - GAP_HEIGHT / 2) ∨
        rectOverlap s.x s.rect_y SHIP_WIDTH SHIP_HEIGHT
          o.x (o.gap_center_y + GAP_HEIGHT / 2) OBSTACLE_WIDTH HEIGHT

theorem obstacleHit_iff (s : Ship) (o : Obstacle) (h0 : 0 ≤ s.rect_y) :
    obstacleHit s o = true ↔
      (rectOverlap s.x s.rect_y SHIP_WIDTH SHIP_HEIGHT
          o.x 0 OBSTACLE_WIDTH (o.gap_center_y - GAP_HEIGHT / 2) ∨
        rectOverlap s.x s.rect_y SHIP_WIDTH SHIP_HEIGHT
          o.x (o.gap_center_y + GAP_HEIGHT / 2) OBSTACLE_WIDTH HEIGHT) := by
  unfold obstacleHit collideRect rectOverlap
  simp only [Bool.or_eq_true, Bool.and_eq_true, decide_eq_true_eq,
    max_lt_iff, lt_min_iff, SHIP_WIDTH, SHIP_HEIGHT, OBSTACLE_WIDTH,
    GAP_HEIGHT, HEIGHT]
  omega

/-- C7: for any ship rect inside the clamp window, `check_collision`
returns true exactly when the ship touches the top or bottom screen edge or
overlaps (as half-open boxes) some obstacle's top or bottom rectangle. -/
theorem C7_check_collision (s : Ship) (l : List Obstacle)
    (h0 : 0 ≤ s.rect_y) (h570 : s.rect_y ≤ HEIGHT - SHIP_HEIGHT) :
    check_collision s l = true ↔ collisionSpec s l := by
  unfold check_collision collisionSpec
  simp only [HEIGHT, SHIP_HEIGHT] at h570 ⊢
  by_cases hedge : s.rect_y ≤ 0 ∨ s.rect_y + 30 ≥ 600
  · rw [if_pos (by simpa using hedge)]
    simp only [true_iff]
    rcases hedge with he | he
    · exact Or.inl (le_antisymm he h0)
    · exact Or.inr (Or.inl (by omega))
  · rw [if_neg (by simpa using hedge)]
    push_neg at hedge
    obtain ⟨he1, he2⟩ := hedge
    rw [List.any_eq_true]
    constructor
    · rintro ⟨o, ho, hhit⟩
      exact Or.inr (Or.inr ⟨o, ho, (obstacleHit_iff s o h0).mp hhit⟩)
    · rintro (he | he | ⟨o, ho, hov⟩)
      · omega
      · omega
      · exact ⟨o, ho, (obstacleHit_iff s o h0).mpr hov⟩

theorem C7_check_collision_witness :
    (0 ≤ shipC'.rect_y ∧ shipC'.rect_y ≤ HEIGHT - SHIP_HEIGHT) ∧
      (check_collision shipC' obsC' = true ↔ collisionSpec shipC' obsC') :=
  ⟨⟨by decide, by decide⟩,
    C7_check_collision shipC' obsC' (by decide) (by decide)⟩

-- ## C9: checkpoint resumption policy

/-- C9: the entry point starts fresh exactly when no snapshot exists, and
otherwise resumes from a snapshot whose modification time is maximal among
all snapshots found (selection is by mtime, not by name). -/
theorem C9_resume :
    resumeDecision [] = none ∧
      (∀ (l : List CkptFile), l ≠ [] → (resumeDecision l).isSome = true) ∧
      ∀ (l : List CkptFile) (c : CkptFile), resumeDecision l = some c →
        c ∈ l ∧ ∀ d ∈ l, d.mtime ≤ c.mtime := by
  have hmem : ∀ (t : List CkptFile) (acc : CkptFile),
      t.foldl (fun acc c => if acc.mtime < c.mtime then c else acc) acc = acc ∨
        t.foldl (fun acc c => if acc.mtime < c.mtime then c else acc) acc ∈ t := by
    intro t
    induction t with
    | nil => intro acc; exact Or.inl rfl
    | cons c t ih =>
        intro acc
        rw [List.foldl_cons]
        rcases ih (if acc.mtime < c.mtime then c else acc) with hl | hl
        · rw [hl]
          by_cases hlt : acc.mtime < c.mtime
          · rw [if_pos hlt]; exact Or.inr (List.mem_cons_self c t)
          · rw [if_neg hlt]; exact Or.inl rfl
        · exact Or.inr (List.mem_cons_of_mem c hl)
  have hle : ∀ (t : List CkptFile) (acc : CkptFile) (d : CkptFile),
      (d = acc ∨ d ∈ t) →
        d.mtime ≤ (t.foldl (fun acc c => if acc.mtime < c.mtime then c else acc) acc).mtime := by
    intro t
    induction t with
    | nil =>
        intro acc d hd
        rcases hd with hd | hd
        · subst hd; exact le_refl _
        · cases hd
    | cons c t ih =>
        intro acc d hd
        rw [List.foldl_cons]
        have hstep : acc.mtime ≤ (if acc.mtime < c.mtime then c else acc).mtime ∧
            c.mtime ≤ (if acc.mtime < c.mtime then c else acc).mtime := by
          by_cases hlt : acc.mtime < c.mtime
          · rw [if_pos hlt]; exact ⟨le_of_lt hlt, le_refl _⟩
          · rw [if_neg hlt]; exact ⟨le_refl _, by omega⟩
        rcases hd with hd | hd
        · subst hd
          exact le_trans hstep.1 (ih _ _ (Or.inl rfl))
        · rcases List.mem_cons.mp hd with hd | hd
          · subst hd
            exact le_trans hstep.2 (ih _ _ (Or.inl rfl))
          · exact ih _ _ (Or.inr hd)
  refine ⟨rfl, ?_, ?_⟩
  · intro l hl
    match l, hl with
    | c :: t, _ => rfl
  · intro l c hc
    match l, hc with
    | a :: t, hc =>
        simp only [resumeDecision, maxByMtime, Option.some.injEq] at hc
        constructor
        · rcases hmem t a with hl | hl
          · rw [← hc, hl]; exact List.mem_cons_self a t
          · rw [← hc]; exact List.mem_cons_of_mem a hl
        · intro d hd
          rw [← hc]
          rcases List.mem_cons.mp hd with hh | hh
          · exact hle t a d (Or.inl hh)
          · exact hle t a d (Or.inr hh)

def ckptA : CkptFile := { name := "ppo_model_900000.zip", mtime := 50 }

def ckptB : CkptFile := { name := "ppo_model_100000.zip", mtime := 99 }

theorem C9_resume_witness :
    resumeDecision [ckptA, ckptB] = some ckptB ∧
      (ckptB ∈ [ckptA, ckptB] ∧ ∀ d ∈ [ckptA, ckptB], d.mtime ≤ ckptB.mtime) := by
  have h : resumeDecision [ckptA, ckptB] = some ckptB := by
    simp [resumeDecision, maxByMtime, ckptA, ckptB]
  exact ⟨h, C9_resume.2.2 [ckptA, ckptB] ckptB h⟩

-- ## C10: the reset seed does not influence the initial state

/-- C10: two `reset` calls with different seeds but the same process-wide
random stream produce the same ship, the same obstacles (same gap centers),
and the same initial observation — gap placement draws from the global
`random` module, and the seeded `np_random` generator is never read. -/
theorem C10_seed_ignored (g : ℕ → ℤ) (k : ℕ) (s1 s2 : Option ℤ) :
    (reset g s1 k).ship = (reset g s2 k).ship ∧
      (reset g s1 k).obstacles = (reset g s2 k).obstacles ∧
      get_obs (reset g s1 k) = get_obs (reset g s2 k) :=
  ⟨rfl, rfl, rfl⟩
